import Mathlib

/-!
Shallow embedding of `src/index.ts` of `create-congnv-template`, a small
project-scaffolding CLI.  Pure helpers (`formatTargetDir`,
`isValidPackageName`, `toValidPackageName`, `isEmpty`) are translated to
Lean functions on `String` / `List Char`; the paginated catalog fetch
becomes a fuelled loop over an abstract page oracle; the interactive
`init` flow becomes a pure function from the command line, an abstract
filesystem, and the user's prompt answers to an outcome plus an ordered
list of filesystem effects; the post-clone `package.json` rewrite is
modelled on a JSON value type.  Character classes from the source regexes
are expressed through `Char.toNat` code points.
-/

namespace CreateTemplate

/-- Whitespace as recognized by JS `trim()` and the regex class `\s`
(restricted to the ASCII members: space, tab, LF, VT, FF, CR). -/
def isWs (c : Char) : Bool :=
  c.toNat = 32 || c.toNat = 9 || c.toNat = 10 || c.toNat = 13 ||
    c.toNat = 11 || c.toNat = 12

/-- Drop a maximal run of characters satisfying `P` from the end of a list. -/
def stripSuffixRun (P : Char → Bool) (l : List Char) : List Char :=
  (l.reverse.dropWhile P).reverse

/-- JS `String.prototype.trim` on a character list: drop leading and trailing
whitespace. -/
def trimList (l : List Char) : List Char :=
  stripSuffixRun isWs (l.dropWhile isWs)

/-- JS `String.prototype.trim`. -/
def trimStr (s : String) : String :=
  ⟨trimList s.data⟩

/-- `replace(/\/+$/g, '')`: strip the trailing run of slashes. -/
def stripTrailingSlashes (l : List Char) : List Char :=
  stripSuffixRun (fun c => c = '/') l

/-- `formatTargetDir` on a present string: `trim()` then strip trailing
slashes (source line 24). -/
def formatTargetDirStr (s : String) : String :=
  ⟨stripTrailingSlashes (trimList s.data)⟩

/-- `const formatTargetDir = (targetDir) => targetDir?.trim().replace(/\/+$/g, '')`:
optional chaining sends `undefined` to `undefined`. -/
def formatTargetDir : Option String → Option String :=
  Option.map formatTargetDirStr

/-- The regex class `[a-z\d\-~]` (code points: 97..122, 48..57, 45, 126).
First character of the unscoped package-name part, and also the set kept
unchanged by the final replacement in `toValidPackageName`. -/
def nameStart (c : Char) : Bool :=
  (97 ≤ c.toNat && c.toNat ≤ 122) || (48 ≤ c.toNat && c.toNat ≤ 57) ||
    c.toNat = 45 || c.toNat = 126

/-- The regex class `[a-z\d\-._~]`: continuation characters of the name part
(adds `.` = 46 and `_` = 95). -/
def nameCont (c : Char) : Bool :=
  nameStart c || c.toNat = 46 || c.toNat = 95

/-- The regex class `[a-z\d\-*~]`: first character of a scope (adds `*` = 42). -/
def scopeStart (c : Char) : Bool :=
  nameStart c || c.toNat = 42

/-- The regex class `[a-z\d\-*._~]`: continuation characters of a scope. -/
def scopeCont (c : Char) : Bool :=
  scopeStart c || c.toNat = 46 || c.toNat = 95

/-- Match of `[a-z\d\-~][a-z\d\-._~]*` against a whole character list. -/
def matchesName : List Char → Bool
  | [] => false
  | c :: cs => nameStart c && cs.all nameCont

/-- Match of `[a-z\d\-*~][a-z\d\-*._~]*` against a whole character list. -/
def matchesScope : List Char → Bool
  | [] => false
  | c :: cs => scopeStart c && cs.all scopeCont

/-- `isValidPackageName` (source lines 27-31): full match of
`^(?:@[a-z\d\-*~][a-z\d\-*._~]*\/)?[a-z\d\-~][a-z\d\-._~]*$`.
Since neither character class contains `/` or `@`, the scoped alternative
applies exactly to strings starting with `@`, with the scope ending at the
first `/`. -/
def isValidPackageName (s : String) : Bool :=
  match s.data with
  | '@' :: rest =>
      (match rest.dropWhile (fun c => c ≠ '/') with
       | '/' :: nm => matchesScope (rest.takeWhile (fun c => c ≠ '/')) && matchesName nm
       | _ => false)
  | l => matchesName l

/-- One step of a global regex replacement `replace(/P+/g, c)`: the Boolean
records whether the previous character was part of a run being replaced. -/
def collapseRunsAux (P : Char → Bool) (c : Char) : Bool → List Char → List Char
  | _, [] => []
  | inRun, x :: xs =>
      if P x then
        if inRun then collapseRunsAux P c true xs
        else c :: collapseRunsAux P c true xs
      else x :: collapseRunsAux P c false xs

/-- `replace(/P+/g, c)`: each maximal run of `P`-characters becomes a single
copy of `c`. -/
def collapseRuns (P : Char → Bool) (c : Char) (l : List Char) : List Char :=
  collapseRunsAux P c false l

/-- JS `toLowerCase` on the ASCII range: `A`..`Z` (65..90) shifts down by 32. -/
def lowerChar (c : Char) : Char :=
  if 65 ≤ c.toNat && c.toNat ≤ 90 then Char.ofNat (c.toNat + 32) else c

/-- `replace(/^[._]/, '')`: drop one leading dot (46) or underscore (95). -/
def stripLeadDotUnderscore : List Char → List Char
  | [] => []
  | c :: cs => if c.toNat = 46 || c.toNat = 95 then cs else c :: cs

/-- `toValidPackageName` (source lines 33-40): trim, lowercase, collapse
whitespace runs to `-`, drop one leading `.`/`_`, then collapse runs of
characters outside `[a-z\d\-~]` to `-`. -/
def toValidPackageName (s : String) : String :=
  ⟨collapseRuns (fun c => !(nameStart c)) '-'
    (stripLeadDotUnderscore
      (collapseRuns isWs '-'
        ((trimList s.data).map lowerChar)))⟩

/-- `isEmpty` (source lines 18-21) on a directory listing: no entries, or a
single entry named `.git`. -/
def isEmptyListing (files : List String) : Bool :=
  files.length == 0 || (files.length == 1 && files.head? == some ".git")

lemma nameStart_ranges {c : Char} (h : nameStart c = true) :
    (97 ≤ c.toNat ∧ c.toNat ≤ 122) ∨ (48 ≤ c.toNat ∧ c.toNat ≤ 57) ∨
      c.toNat = 45 ∨ c.toNat = 126 := by
  have h2 : ((97 ≤ c.toNat ∧ c.toNat ≤ 122) ∨ (48 ≤ c.toNat ∧ c.toNat ≤ 57)) ∨
      c.toNat = 45 ∨ c.toNat = 126 := by
    simpa [nameStart, Bool.or_eq_true, Bool.and_eq_true, decide_eq_true_eq,
      or_assoc] using h
  tauto

lemma isWs_eq_false_of_nameStart {c : Char} (h : nameStart c = true) :
    isWs c = false := by
  have h2 := nameStart_ranges h
  simp only [isWs, Bool.or_eq_false_iff, decide_eq_false_iff_not]
  omega

lemma lowerChar_eq_self_of_nameStart {c : Char} (h : nameStart c = true) :
    lowerChar c = c := by
  have h2 := nameStart_ranges h
  have h3 : ¬((65 ≤ c.toNat && c.toNat ≤ 90) = true) := by
    simp only [Bool.and_eq_true, decide_eq_true_eq]
    omega
  simp [lowerChar, h3]

lemma dropWhile_eq_self_of_all {α : Type} {P : α → Bool} {l : List α}
    (h : ∀ c ∈ l, P c = false) : l.dropWhile P = l := by
  cases l with
  | nil => rfl
  | cons x xs => simp [List.dropWhile_cons, h x (List.mem_cons_self x xs)]

lemma head_dropWhile_false {α : Type} (P : α → Bool) :
    ∀ (l : List α) (c : α), (l.dropWhile P).head? = some c → P c = false := by
  intro l
  induction l with
  | nil => intro c hc; simp at hc
  | cons x xs ih =>
    intro c hc
    by_cases hx : P x = true
    · rw [List.dropWhile_cons, if_pos hx] at hc
      exact ih c hc
    · rw [List.dropWhile_cons, if_neg hx] at hc
      simp only [List.head?_cons, Option.some.injEq] at hc
      subst hc
      simpa using hx

lemma stripSuffixRun_append (P : Char → Bool) (l : List Char) :
    l = stripSuffixRun P l ++ (l.reverse.takeWhile P).reverse := by
  unfold stripSuffixRun
  rw [← List.reverse_append, List.takeWhile_append_dropWhile, List.reverse_reverse]

lemma stripSuffixRun_eq_self {P : Char → Bool} {l : List Char}
    (h : ∀ c ∈ l, P c = false) : stripSuffixRun P l = l := by
  unfold stripSuffixRun
  rw [dropWhile_eq_self_of_all (fun c hc => h c (List.mem_reverse.mp hc)),
    List.reverse_reverse]

lemma trimList_eq_self {l : List Char} (h : ∀ c ∈ l, nameStart c = true) :
    trimList l = l := by
  unfold trimList
  rw [dropWhile_eq_self_of_all (fun c hc => isWs_eq_false_of_nameStart (h c hc))]
  exact stripSuffixRun_eq_self (fun c hc => isWs_eq_false_of_nameStart (h c hc))

lemma map_lowerChar_eq_self {l : List Char} (h : ∀ c ∈ l, nameStart c = true) :
    l.map lowerChar = l := by
  induction l with
  | nil => rfl
  | cons x xs ih =>
    rw [List.map_cons, lowerChar_eq_self_of_nameStart (h x (List.mem_cons_self x xs)),
      ih (fun c hc => h c (List.mem_cons_of_mem x hc))]

lemma collapseRunsAux_eq_self {P : Char → Bool} {c : Char} {l : List Char}
    (h : ∀ x ∈ l, P x = false) : collapseRunsAux P c false l = l := by
  induction l with
  | nil => rfl
  | cons x xs ih =>
    rw [collapseRunsAux, if_neg (by simp [h x (List.mem_cons_self x xs)]),
      ih (fun y hy => h y (List.mem_cons_of_mem x hy))]

lemma collapseRuns_eq_self {P : Char → Bool} {c : Char} {l : List Char}
    (h : ∀ x ∈ l, P x = false) : collapseRuns P c l = l :=
  collapseRunsAux_eq_self h

lemma stripLeadDotUnderscore_eq_self {l : List Char}
    (h : ∀ c ∈ l, nameStart c = true) : stripLeadDotUnderscore l = l := by
  cases l with
  | nil => rfl
  | cons x xs =>
    have h2 := nameStart_ranges (h x (List.mem_cons_self x xs))
    have h3 : ¬((x.toNat = 46 || x.toNat = 95) = true) := by
      simp only [Bool.or_eq_true, decide_eq_true_eq]
      omega
    rw [stripLeadDotUnderscore, if_neg h3]

lemma mem_collapseRunsAux {P : Char → Bool} {c : Char} :
    ∀ {b : Bool} {l : List Char} {x : Char},
      x ∈ collapseRunsAux P c b l → x = c ∨ P x = false := by
  intro b l
  induction l generalizing b with
  | nil => intro x hx; simp [collapseRunsAux] at hx
  | cons y ys ih =>
    intro x hx
    by_cases hy : P y = true
    · rw [collapseRunsAux, if_pos hy] at hx
      cases b with
      | true => exact ih hx
      | false =>
        rcases List.mem_cons.mp hx with rfl | hx2
        · exact Or.inl rfl
        · exact ih hx2
    · rw [collapseRunsAux, if_neg hy] at hx
      rcases List.mem_cons.mp hx with rfl | hx2
      · exact Or.inr (by simpa using hy)
      · exact ih hx2

lemma nameStart_all_toValidPackageName (s : String) :
    ∀ c ∈ (toValidPackageName s).data, nameStart c = true := by
  intro c hc
  have hc2 : c ∈ collapseRuns (fun c => !(nameStart c)) '-'
      (stripLeadDotUnderscore
        (collapseRuns isWs '-' ((trimList s.data).map lowerChar))) := hc
  rcases mem_collapseRunsAux hc2 with rfl | h
  · decide
  · simpa using h

lemma toValidPackageName_fixed {t : String}
    (h : ∀ c ∈ t.data, nameStart c = true) : toValidPackageName t = t := by
  obtain ⟨l⟩ := t
  have hl : ∀ c ∈ l, nameStart c = true := h
  show (⟨collapseRuns (fun c => !(nameStart c)) '-'
    (stripLeadDotUnderscore
      (collapseRuns isWs '-' ((trimList l).map lowerChar)))⟩ : String) = ⟨l⟩
  rw [trimList_eq_self hl, map_lowerChar_eq_self hl,
    collapseRuns_eq_self (fun x hx => isWs_eq_false_of_nameStart (hl x hx)),
    stripLeadDotUnderscore_eq_self hl,
    collapseRuns_eq_self (fun x hx => by simp [hl x hx])]

/-- C7: `toValidPackageName` is idempotent — applying it to its own output
returns that output unchanged, for every input string. -/
theorem claim_C7_toValidPackageName_idempotent :
    ∀ s : String, toValidPackageName (toValidPackageName s) = toValidPackageName s :=
  fun s => toValidPackageName_fixed (nameStart_all_toValidPackageName s)

/-- C6: `toValidPackageName` trims, lowercases, collapses whitespace runs to
single hyphens, strips one leading dot or underscore, and collapses runs of
characters outside `[a-z0-9-~]` to single hyphens; in particular
`toValidPackageName "My Cool App!" = "my-cool-app-"`.  It is a total pure
Lean function, hence deterministic and never failing. -/
theorem claim_C6_toValidPackageName_behavior :
    toValidPackageName "My Cool App!" = "my-cool-app-" ∧
    toValidPackageName " .Foo  Bar " = "foo-bar" ∧
    toValidPackageName "._x" = "-x" ∧
    (∀ s : String, toValidPackageName (" " ++ s) = toValidPackageName s) := by
  refine ⟨by decide, by decide, by decide, fun s => ?_⟩
  have hdata : (" " ++ s).data = ' ' :: s.data := by
    rw [String.data_append]
    rfl
  unfold toValidPackageName trimList
  rw [hdata, List.dropWhile_cons, if_pos (by decide)]

/-- C9: the output of `toValidPackageName` is not always accepted by
`isValidPackageName`: there is an input (for instance `"."`, whose
normalization is the empty string) on which the composition fails. -/
theorem claim_C9_normalization_not_always_valid :
    ∃ s : String, isValidPackageName (toValidPackageName s) = false :=
  ⟨".", by decide⟩

/-- C10: every character of a `toValidPackageName` output lies in the
accepted set `[a-z0-9-~]`, and any non-empty output satisfies
`isValidPackageName`; the spec's caveat can only bite on the empty result. -/
theorem claim_C10_nonempty_normalization_valid :
    ∀ s : String, (∀ c ∈ (toValidPackageName s).data, nameStart c = true) ∧
      (toValidPackageName s ≠ "" → isValidPackageName (toValidPackageName s) = true) := by
  intro s
  refine ⟨nameStart_all_toValidPackageName s, fun hne => ?_⟩
  have hall := nameStart_all_toValidPackageName s
  have hdata : (toValidPackageName s).data ≠ [] := by
    intro h0
    exact hne (by
      have : toValidPackageName s = ⟨[]⟩ := by
        cases hgen : toValidPackageName s with
        | mk l => rw [hgen] at h0; simp at h0; rw [h0]
      exact this)
  unfold isValidPackageName
  cases ht : (toValidPackageName s).data with
  | nil => exact absurd ht hdata
  | cons c cs =>
    have hc : nameStart c = true := hall c (ht ▸ List.mem_cons_self c cs)
    have hcs : ∀ x ∈ cs, nameStart x = true :=
      fun x hx => hall x (ht ▸ List.mem_cons_of_mem c hx)
    have hcat : c ≠ '@' := by
      intro h0
      have := nameStart_ranges hc
      rw [h0] at this
      simp at this
    split
    · rename_i rest heq
      exact absurd (List.head_eq_of_cons_eq heq) hcat
    · rename_i l hne2
      simp only [matchesName, Bool.and_eq_true]
      exact ⟨hc, List.all_eq_true.mpr fun x hx => by
        simp [nameCont, hcs x hx]⟩

/-- C10 witness: `toValidPackageName "My Cool App!"` is non-empty, and its
output `"my-cool-app-"` passes `isValidPackageName`. -/
theorem claim_C10_witness :
    isValidPackageName (toValidPackageName "My Cool App!") = true :=
  (claim_C10_nonempty_normalization_valid "My Cool App!").2 (by decide)

/-- C3 counterexample: on input `"foo /"`, `formatTargetDir` trims first and
only then strips trailing slashes, so the result `"foo "` still carries
trailing whitespace — refuting the claim that every result is free of
trailing whitespace. -/
theorem claim_C3_counterexample :
    formatTargetDir (some "foo /") = some "foo " ∧ isWs ' ' = true := by
  decide

/-- C3 amended: `formatTargetDir` maps `undefined` to `undefined` and a
present string to its trim followed by removal of the trailing run of `/`;
the result never starts with whitespace and never ends with `/`, and
`formatTargetDir "foo/ " = "foo"` — but whitespace exposed by removing
trailing slashes can remain at the end. -/
theorem claim_C3_amended :
    formatTargetDir none = none ∧
    formatTargetDir (some "foo/ ") = some "foo" ∧
    (∀ s : String, formatTargetDir (some s) = some (formatTargetDirStr s)) ∧
    (∀ (s : String) (c : Char),
      (formatTargetDirStr s).data.getLast? = some c → c ≠ '/') ∧
    (∀ (s : String) (c : Char),
      (formatTargetDirStr s).data.head? = some c → isWs c = false) := by
  refine ⟨by decide, by decide, fun s => rfl, fun s c hc => ?_, fun s c hc => ?_⟩
  · have hc2 : ((trimList s.data).reverse.dropWhile (fun c => c = '/')).reverse.getLast?
        = some c := hc
    rw [List.getLast?_reverse] at hc2
    have := head_dropWhile_false (fun c => c = '/') _ _ hc2
    simpa using this
  · have hc2 : (stripSuffixRun (fun c => c = '/') (trimList s.data)).head? = some c := hc
    have hsplit := stripSuffixRun_append (fun c => c = '/') (trimList s.data)
    have hhead : (trimList s.data).head? = some c := by
      rw [hsplit, List.head?_append, hc2]
      rfl
    have hsplit2 := stripSuffixRun_append isWs (s.data.dropWhile isWs)
    have hhead2 : (s.data.dropWhile isWs).head? = some c := by
      have : trimList s.data = stripSuffixRun isWs (s.data.dropWhile isWs) := rfl
      rw [this] at hhead
      rw [hsplit2, List.head?_append, hhead]
      rfl
    exact head_dropWhile_false isWs _ _ hhead2

/-- C3 witness for the amended claim: instantiating the universal parts on
concrete inputs. -/
theorem claim_C3_amended_witness : ('o' ≠ '/') ∧ isWs 'f' = false :=
  ⟨claim_C3_amended.2.2.2.1 "foo" 'o' (by decide),
   claim_C3_amended.2.2.2.2 "foo" 'f' (by decide)⟩

/-- `ITemplate` (source lines 42-46): one catalog entry of the remote
template listing. -/
structure Template where
  name : String
  description : Option String
  clone_url : String
deriving DecidableEq

/-- One response of `GET /search/repositories`: the items of the returned
page and the server-reported `total_count`. -/
structure PageResponse where
  items : List Template
  total_count : Nat
deriving DecidableEq

/-- The `while (hasMore)` loop of `fetchTemplateRepositories` (source lines
48-73): request a page, append its items, and continue while the
accumulated count is below the response's `total_count`.  `pages k` is the
remote's answer to the `k`-th request (an error models a
transport/authorization failure, which the loop propagates unchanged);
`fuel` bounds the number of iterations, `Except.ok none` meaning the loop
was still running when the fuel ran out. -/
def fetchGo (pages : Nat → Except String PageResponse) :
    Nat → Nat → List Template → Except String (Option (List Template))
  | 0, _, _ => Except.ok none
  | fuel + 1, i, acc =>
    match pages i with
    | Except.error e => Except.error e
    | Except.ok r =>
      if (acc ++ r.items).length < r.total_count then
        fetchGo pages fuel (i + 1) (acc ++ r.items)
      else Except.ok (some (acc ++ r.items))

/-- `fetchTemplateRepositories`: run the pagination loop from an empty
accumulator and the first request. -/
def fetchTemplateRepositories (pages : Nat → Except String PageResponse)
    (fuel : Nat) : Except String (Option (List Template)) :=
  fetchGo pages fuel 0 []

/-- The items of the `k`-th response (empty for an error response). -/
def pageItems (pages : Nat → Except String PageResponse) (k : Nat) : List Template :=
  match pages k with
  | Except.ok r => r.items
  | Except.error _ => []

/-- Concatenation, in request order, of the items of the first `k` responses. -/
def accumUpTo (pages : Nat → Except String PageResponse) : Nat → List Template
  | 0 => []
  | k + 1 => accumUpTo pages k ++ pageItems pages k

lemma accumUpTo_succ_of_ok {pages : Nat → Except String PageResponse} {i : Nat}
    {r : PageResponse} (hp : pages i = Except.ok r) {acc : List Template}
    (hacc : acc = accumUpTo pages i) :
    acc ++ r.items = accumUpTo pages (i + 1) := by
  rw [accumUpTo, ← hacc, pageItems, hp]

lemma fetchGo_ok_char (pages : Nat → Except String PageResponse) :
    ∀ (fuel i : Nat) (acc ts : List Template),
      acc = accumUpTo pages i →
      fetchGo pages fuel i acc = Except.ok (some ts) →
      ∃ k, i < k ∧ ts = accumUpTo pages k ∧
        ∀ j, i ≤ j → j < k → ∃ r, pages j = Except.ok r ∧
          (j + 1 < k → (accumUpTo pages (j + 1)).length < r.total_count) ∧
          (j + 1 = k → r.total_count ≤ (accumUpTo pages (j + 1)).length) := by
  intro fuel
  induction fuel with
  | zero => intro i acc ts hacc h; simp [fetchGo] at h
  | succ fuel ih =>
    intro i acc ts hacc h
    rw [fetchGo] at h
    cases hp : pages i with
    | error e => rw [hp] at h; exact absurd h (by simp)
    | ok r =>
      rw [hp] at h
      simp only at h
      have hacc1 : acc ++ r.items = accumUpTo pages (i + 1) :=
        accumUpTo_succ_of_ok hp hacc
      by_cases hlt : (acc ++ r.items).length < r.total_count
      · rw [if_pos hlt] at h
        obtain ⟨k, hik, hts, hall⟩ := ih (i + 1) (acc ++ r.items) ts hacc1 h
        refine ⟨k, by omega, hts, fun j hij hjk => ?_⟩
        by_cases hji : j = i
        · subst hji
          refine ⟨r, hp, fun _ => ?_, fun heq => by omega⟩
          rw [← hacc1]
          exact hlt
        · exact hall j (by omega) hjk
      · rw [if_neg hlt] at h
        have hts : ts = acc ++ r.items := by
          have := Option.some.inj (Except.ok.inj h)
          exact this.symm
        refine ⟨i + 1, by omega, by rw [hts, hacc1], fun j hij hjk => ?_⟩
        have hji : j = i := by omega
        subst hji
        exact ⟨r, hp, fun hcon => by omega, fun _ => by rw [← hacc1]; omega⟩

lemma fetchGo_err_char (pages : Nat → Except String PageResponse) (e : String) :
    ∀ (i : Nat), ∀ (fuel s : Nat) (acc : List Template), i < fuel →
      acc = accumUpTo pages s →
      (∀ j, s ≤ j → j < s + i → ∃ r, pages j = Except.ok r ∧
        (accumUpTo pages (j + 1)).length < r.total_count) →
      pages (s + i) = Except.error e →
      fetchGo pages fuel s acc = Except.error e := by
  intro i
  induction i with
  | zero =>
    intro fuel s acc hfuel hacc hprev herr
    obtain ⟨fuel, rfl⟩ : ∃ f, fuel = f + 1 := ⟨fuel - 1, by omega⟩
    simp only [Nat.add_zero] at herr
    rw [fetchGo, herr]
  | succ i ih =>
    intro fuel s acc hfuel hacc hprev herr
    obtain ⟨fuel, rfl⟩ : ∃ f, fuel = f + 1 := ⟨fuel - 1, by omega⟩
    obtain ⟨r, hr, hlt⟩ := hprev s (le_refl s) (by omega)
    have hacc1 : acc ++ r.items = accumUpTo pages (s + 1) :=
      accumUpTo_succ_of_ok hr hacc
    rw [fetchGo, hr]
    simp only
    rw [if_pos (by rw [hacc1]; exact hlt)]
    refine ih fuel (s + 1) (acc ++ r.items) (by omega) hacc1
      (fun j hle hj => hprev j (by omega) (by omega)) ?_
    have : s + 1 + i = s + (i + 1) := by omega
    rw [this, herr]

/-- C4: `fetchTemplateRepositories` accumulates pages: when it returns a
list, that list is the in-order concatenation of the items of the first `k`
responses, where every earlier accumulated length is strictly below the
corresponding server-reported `total_count` and the final one reaches it;
and an error response on any request — all previous ones having succeeded
and kept the loop going — propagates as the overall result, with no retry. -/
theorem claim_C4_fetch_pagination (pages : Nat → Except String PageResponse)
    (fuel : Nat) (ts : List Template) :
    (fetchTemplateRepositories pages fuel = Except.ok (some ts) →
      ∃ k, 0 < k ∧ ts = accumUpTo pages k ∧
        ∀ j, j < k → ∃ r, pages j = Except.ok r ∧
          (j + 1 < k → (accumUpTo pages (j + 1)).length < r.total_count) ∧
          (j + 1 = k → r.total_count ≤ (accumUpTo pages (j + 1)).length)) ∧
    (∀ (i : Nat) (e : String), i < fuel →
      (∀ j, j < i → ∃ r, pages j = Except.ok r ∧
        (accumUpTo pages (j + 1)).length < r.total_count) →
      pages i = Except.error e →
      fetchTemplateRepositories pages fuel = Except.error e) := by
  constructor
  · intro h
    obtain ⟨k, hk, hts, hall⟩ := fetchGo_ok_char pages fuel 0 [] ts rfl h
    exact ⟨k, hk, hts, fun j hj => hall j (Nat.zero_le j) hj⟩
  · intro i e hif hprev herr
    exact fetchGo_err_char pages e i fuel 0 [] hif rfl
      (fun j h0 hj => hprev j (by omega)) (by simpa using herr)

/-- A concrete template and page oracle for the C4 witness: every request
returns one item with `total_count = 2`, so the loop runs exactly twice. -/
def tmplA : Template :=
  ⟨"tmpl-a", some "demo template", "https://example.com/a.git"⟩

def pagesW : Nat → Except String PageResponse :=
  fun _ => Except.ok ⟨[tmplA], 2⟩

/-- Evaluation of the fetch on `pagesW`: two requests, two accumulated items. -/
lemma fetch_pagesW_eval :
    fetchTemplateRepositories pagesW 5 = Except.ok (some [tmplA, tmplA]) := rfl

/-- A page oracle whose second request fails: the first page succeeds and
keeps the loop going, then the remote reports an error. -/
def pagesE : Nat → Except String PageResponse :=
  fun i => if i = 0 then Except.ok ⟨[tmplA], 2⟩ else Except.error "rate limited"

/-- C4 witness: on the concrete oracle `pagesE`, whose first page succeeds
below the total and whose second request errors, the error propagates as
the overall result with no retry. -/
theorem claim_C4_witness :
    fetchTemplateRepositories pagesE 5 = Except.error "rate limited" :=
  (claim_C4_fetch_pagination pagesE 5 []).2 1 "rate limited" (by decide)
    (fun j hj => by
      have hj0 : j = 0 := by omega
      subst hj0
      exact ⟨⟨[tmplA], 2⟩, rfl, by decide⟩)
    rfl

/-- The parsed command line (source lines 11-14): the first positional
argument and the `--template` / `-t` flags, each possibly absent. -/
structure Argv where
  positional : Option String
  templateFlag : Option String
  tFlag : Option String

/-- JS truthiness of a possibly-undefined string: `undefined` and `""` are
falsy. -/
def jsStrTruthy : Option String → Bool
  | some s => !(s == "")
  | none => false

/-- JS `a || b` on possibly-undefined strings. -/
def jsOrStr (a b : Option String) : Option String :=
  if jsStrTruthy a then a else b

/-- JS `a || d` with a string default: the default replaces `undefined` and
the empty string. -/
def jsOrStrD (a : Option String) (d : String) : String :=
  match a with
  | some s => if s = "" then d else s
  | none => d

/-- `const defaultTargetDir = 'my-project'` (source line 75). -/
def defaultTargetDir : String := "my-project"

/-- `argv.template || argv.t` (source line 82). -/
def argTemplateOf (argv : Argv) : Option String :=
  jsOrStr argv.templateFlag argv.tFlag

/-- `!!argTemplate && repoTemplates.some(t => t.name === argTemplate)`
(source lines 84-86). -/
def isValidTemplate (catalog : List Template) (argTemplate : Option String) : Bool :=
  jsStrTruthy argTemplate && catalog.any (fun t => argTemplate == some t.name)

/-- `let targetDir = argTargetDir || defaultTargetDir` (source line 88):
the value of `targetDir` before any prompt fires. -/
def initialTargetDir (argv : Argv) : String :=
  jsOrStrD (formatTargetDir argv.positional) defaultTargetDir

/-- The `onState` handler of the ProjectName prompt (source lines 103-105):
every state-change event overwrites `targetDir` with
`formatTargetDir(state.value) || defaultTargetDir`.  `events` is the
sequence of `state.value` strings the prompt reported (the prompt is always
shown; an empty sequence models a run in which it never fired). -/
def finalTargetDir (argv : Argv) (events : List String) : String :=
  events.foldl (fun _ e => jsOrStrD (formatTargetDir (some e)) defaultTargetDir)
    (initialTargetDir argv)

/-- Abstract filesystem: each directory path maps to its listing, `none`
meaning the directory does not exist.  `fs.existsSync` and `isEmpty`
(via `readdirSync`) are read through it. -/
structure Fs where
  dirs : String → Option (List String)

def existsSync (fs : Fs) (p : String) : Bool :=
  (fs.dirs p).isSome

/-- `isEmpty(targetDir)` — only ever called on an existing directory. -/
def isEmptyAt (fs : Fs) (p : String) : Bool :=
  isEmptyListing ((fs.dirs p).getD [])

/-- The user's interactive answers: the ProjectName state-change values, the
overwrite confirmation, the package-name text (only consulted when that
prompt is shown), and the index picked in the template select. -/
structure UserAnswers where
  projectNameEvents : List String
  overwrite : Bool
  packageName : String
  templateIdx : Nat

/-- `getProjectName` (source lines 90-91): `.` resolves to the base name of
the current working directory. -/
def getProjectName (targetDir cwdBase : String) : String :=
  if targetDir = "." then cwdBase else targetDir

/-- `kolorist.red`: wraps the text in terminal color escape codes; modelled
as the identity on the wrapped text, since the coloring does not change the
message content. -/
def red (s : String) : String := s

def cancelMsg : String := red "✖" ++ " Operation cancelled"

def templateMissingMsg : String := red "✖" ++ " Something error. Template not available now."

/-- The filesystem mutations `init` can issue, in program order
(source lines 168-188; the post-clone callback is modelled separately). -/
inductive Effect where
  | rmRoot (path : String)
  | clone (url : String) (dir : String)
deriving DecidableEq

/-- How the run ends: cancellation caught by the top-level `try/catch`
(message printed, early return), the fatal `template not available` throw,
or hand-off to `git clone`. -/
inductive InitOutcome where
  | cancelled (msg : String)
  | fatal (msg : String)
  | launchedClone (url : String)
deriving DecidableEq

structure InitResult where
  outcome : InitOutcome
  effects : List Effect
  targetDir : String
deriving DecidableEq

/-- The OverwriteConfirm prompt (source lines 107-116): shown only when the
current `targetDir` exists and is non-empty; otherwise its answer stays
`undefined`. -/
def overwriteAnswer (fs : Fs) (user : UserAnswers) (targetDir : String) : Option Bool :=
  if existsSync fs targetDir && !(isEmptyAt fs targetDir) then some user.overwrite
  else none

/-- The TemplateSelect prompt (source lines 134-151): skipped when the flag
names a known template; otherwise the user's pick among the catalog
choices (`none` models the degenerate empty-choice select). -/
def promptTemplateAnswer (catalog : List Template) (valid : Bool) (idx : Nat) :
    Option Template :=
  if valid then none else catalog[idx]?

/-- `const selectedTemplete = template ? template : repoTemplates.find(...)`
(source lines 172-174). -/
def selectedTemplete (catalog : List Template) (argTemplate : Option String)
    (valid : Bool) (idx : Nat) : Option Template :=
  match promptTemplateAnswer catalog valid idx with
  | some t => some t
  | none => catalog.find? (fun t => argTemplate == some t.name)

/-- The `init` flow (source lines 77-214), cut at the `git clone` hand-off:
from the fetched catalog, the abstract filesystem, the command line and the
user's prompt answers to the outcome and the ordered filesystem effects.
The PackageName prompt (source lines 126-133) affects only the post-clone
descriptor rewrite, modelled separately by `rewritePkgContent`. -/
def runInit (catalog : List Template) (fs : Fs) (argv : Argv)
    (user : UserAnswers) (cwd : String) : InitResult :=
  let argTemplate := argTemplateOf argv
  let valid := isValidTemplate catalog argTemplate
  let targetDir := finalTargetDir argv user.projectNameEvents
  let ow := overwriteAnswer fs user targetDir
  if ow = some false then
    -- the overwriteChecker prompt throws; the top-level catch prints and returns
    ⟨InitOutcome.cancelled cancelMsg, [], targetDir⟩
  else
    let root := cwd ++ "/" ++ targetDir
    let doRm := (ow == none || ow == some true) && existsSync fs root
    let effs := if doRm then [Effect.rmRoot root] else []
    match selectedTemplete catalog argTemplate valid user.templateIdx with
    | none => ⟨InitOutcome.fatal templateMissingMsg, effs, targetDir⟩
    | some t =>
        ⟨InitOutcome.launchedClone t.clone_url,
         effs ++ [Effect.clone t.clone_url targetDir], targetDir⟩

/-- A filesystem with no directories at all. -/
def fsEmptyAll : Fs := ⟨fun _ => none⟩

/-- C2 counterexample inputs: positional argument `demo`, but the user types
`other` at the always-shown ProjectName prompt. -/
def argvC2 : Argv := ⟨some "demo", none, none⟩

def userC2 : UserAnswers := ⟨["other"], true, "pkg", 0⟩

/-- C2 counterexample: with non-empty positional argument `"demo"` (whose
normalized form is `"demo"`), typing `"other"` at the project-name prompt
makes the final target directory `"other"`, not `"demo"` — the prompt is
always shown and its state handler overwrites `targetDir`, so the claimed
positional-over-interactive precedence fails. -/
theorem claim_C2_counterexample :
    (runInit [tmplA] fsEmptyAll argvC2 userC2 "/cwd").targetDir = "other" ∧
    formatTargetDir (some "demo") = some "demo" ∧ "other" ≠ "demo" := by
  decide

lemma finalTargetDir_snoc (argv : Argv) (events : List String) (e : String) :
    finalTargetDir argv (events ++ [e]) =
      jsOrStrD (formatTargetDir (some e)) defaultTargetDir := by
  unfold finalTargetDir
  rw [List.foldl_append]
  rfl

/-- C2 amended: the positional argument (normalized; empty-falsy) only sets
the initial `targetDir`, with fixed default `my-project`; the ProjectName
prompt is always shown and each state change overwrites `targetDir` with
the normalized entered value (default on empty) — so whenever at least one
state-change event fires, the final target directory is the normalized
last entered value, independent of the positional argument. -/
theorem claim_C2_amended :
    (∀ (argv1 argv2 : Argv) (events : List String), events ≠ [] →
      finalTargetDir argv1 events = finalTargetDir argv2 events) ∧
    (∀ argv : Argv, finalTargetDir argv [] =
      jsOrStrD (formatTargetDir argv.positional) defaultTargetDir) ∧
    (∀ (argv : Argv) (events : List String) (e : String),
      finalTargetDir argv (events ++ [e]) =
        jsOrStrD (formatTargetDir (some e)) defaultTargetDir) ∧
    (∀ catalog fs argv user cwd,
      (runInit catalog fs argv user cwd).targetDir =
        finalTargetDir argv user.projectNameEvents) := by
  refine ⟨fun argv1 argv2 events h => ?_, fun argv => rfl, finalTargetDir_snoc,
    fun catalog fs argv user cwd => ?_⟩
  · cases events with
    | nil => exact absurd rfl h
    | cons e es =>
      unfold finalTargetDir
      rw [List.foldl_cons, List.foldl_cons]
  · unfold runInit
    dsimp only
    split
    · rfl
    · split <;> rfl

/-- C2 witness for the amended claim: on the non-empty event list
`["other"]` the final target directory does not depend on the positional
argument. -/
theorem claim_C2_amended_witness :
    finalTargetDir argvC2 ["other"] = finalTargetDir ⟨none, none, none⟩ ["other"] :=
  claim_C2_amended.1 argvC2 ⟨none, none, none⟩ ["other"] (by decide)

/-- C5: if the resolved target directory exists and is non-empty (per
`isEmpty`) and the user answers `false` to the overwrite confirmation, the
cancellation signal thrown by the checker prompt is caught by the top-level
handler, the cancellation message is the outcome, and no filesystem effect
at all is performed. -/
theorem claim_C5_overwrite_decline_cancels
    (catalog : List Template) (fs : Fs) (argv : Argv) (user : UserAnswers)
    (cwd : String)
    (hex : existsSync fs (finalTargetDir argv user.projectNameEvents) = true)
    (hne : isEmptyAt fs (finalTargetDir argv user.projectNameEvents) = false)
    (hans : user.overwrite = false) :
    runInit catalog fs argv user cwd =
      ⟨InitOutcome.cancelled cancelMsg, [],
       finalTargetDir argv user.projectNameEvents⟩ := by
  have how : overwriteAnswer fs user (finalTargetDir argv user.projectNameEvents)
      = some false := by
    unfold overwriteAnswer
    rw [if_pos (by rw [hex, hne]; rfl), hans]
  unfold runInit
  dsimp only
  rw [how]
  rfl

/-- C5 witness inputs: no positional argument, no prompt events, so the
target directory is the default `my-project`, which exists and contains a
file; the user declines the overwrite. -/
def fsC5 : Fs := ⟨fun p => if p = "my-project" then some ["file.txt"] else none⟩

def userC5 : UserAnswers := ⟨[], false, "pkg", 0⟩

def argvNone : Argv := ⟨none, none, none⟩

/-- C5 witness: the concrete declined-overwrite run ends cancelled with no
effects. -/
theorem claim_C5_witness :
    runInit [tmplA] fsC5 argvNone userC5 "/cwd" =
      ⟨InitOutcome.cancelled cancelMsg, [],
       finalTargetDir argvNone userC5.projectNameEvents⟩ :=
  claim_C5_overwrite_decline_cancels [tmplA] fsC5 argvNone userC5 "/cwd"
    (by decide) (by decide) (by decide)

/-- C1 counterexample inputs: target directory `demo` exists and is empty
(so the overwrite prompt is skipped), the flag names template `nope`, and
the catalog is empty (the search legitimately returns zero templates), so
the select prompt has no choices and no template resolves. -/
def fsC1 : Fs := ⟨fun p => if p = "demo" || p = "/cwd/demo" then some [] else none⟩

def argvC1 : Argv := ⟨some "demo", some "nope", none⟩

def userC1 : UserAnswers := ⟨[], false, "pkg", 0⟩

/-- C1 counterexample: in a run in which the flag-specified template is not
in the catalog and no interactive selection was made, the `rmSync` of the
existing target directory (source line 169) has already fired by the time
the `template not available` error is raised (source line 177) — the claim
that no filesystem mutation precedes the error fails. -/
theorem claim_C1_counterexample :
    runInit [] fsC1 argvC1 userC1 "/cwd" =
      ⟨InitOutcome.fatal templateMissingMsg, [Effect.rmRoot "/cwd/demo"], "demo"⟩ ∧
    Effect.rmRoot "/cwd/demo" ∈ (runInit [] fsC1 argvC1 userC1 "/cwd").effects := by
  decide

/-- C1 amended: when no template resolves, the run ends with the fatal
`template not available` error, raised after the decision flow and before
any clone or file write — but after the conditional removal of the target
directory: the only effects that can precede the error are removals of the
resolved root directory. -/
theorem claim_C1_amended :
    ∀ (catalog : List Template) (fs : Fs) (argv : Argv) (user : UserAnswers)
      (cwd : String) (m : String),
      (runInit catalog fs argv user cwd).outcome = InitOutcome.fatal m →
      m = templateMissingMsg ∧
      ∀ e ∈ (runInit catalog fs argv user cwd).effects,
        e = Effect.rmRoot (cwd ++ "/" ++ finalTargetDir argv user.projectNameEvents) := by
  intro catalog fs argv user cwd m
  unfold runInit
  dsimp only
  split
  · intro h
    exact absurd h (by simp)
  · split
    · intro h
      simp only [InitOutcome.fatal.injEq] at h
      refine ⟨h.symm, fun e he => ?_⟩
      simp only at he
      split at he
      · simpa using he
      · simp at he
    · intro h
      exact absurd h (by simp)

/-- C1 witness for the amended claim: in the concrete counterexample run the
fatal outcome forces the message and the only effect is the root removal. -/
theorem claim_C1_amended_witness :
    (runInit [] fsC1 argvC1 userC1 "/cwd").outcome =
      InitOutcome.fatal templateMissingMsg ∧
    Effect.rmRoot "/cwd/demo" =
      Effect.rmRoot ("/cwd" ++ "/" ++ finalTargetDir argvC1 userC1.projectNameEvents) :=
  ⟨by decide,
   (claim_C1_amended [] fsC1 argvC1 userC1 "/cwd" templateMissingMsg (by decide)).2
     (Effect.rmRoot "/cwd/demo") (by decide)⟩

/-- A JSON value, as produced by `JSON.parse` on a `package.json` file:
object keys are kept in document order (unique after parsing). -/
inductive Jval where
  | jnull
  | jbool (b : Bool)
  | jnum (n : Int)
  | jstr (s : String)
  | jarr (xs : List Jval)
  | jobj (fields : List (String × Jval))

/-- String escaping of `JSON.stringify` (the escapes a `package.json` name
or field can require). -/
def escChar (c : Char) : List Char :=
  if c = '"' || c = '\\' then ['\\', c]
  else if c = '\n' then ['\\', 'n']
  else if c = '\t' then ['\\', 't']
  else if c = '\r' then ['\\', 'r']
  else [c]

def quoteStr (s : String) : String :=
  "\"" ++ ⟨(s.data.map escChar).flatten⟩ ++ "\""

/-- The indentation of `JSON.stringify(v, null, 2)` at depth `d`. -/
def pad (d : Nat) : String :=
  ⟨List.replicate (2 * d) ' '⟩

mutual

/-- `JSON.stringify(v, null, 2)` at depth `d`: objects and arrays put each
member on its own line, indented two spaces per depth; empty ones collapse
to `{}` / `[]`. -/
def stringifyAt (d : Nat) : Jval → String
  | Jval.jnull => "null"
  | Jval.jbool true => "true"
  | Jval.jbool false => "false"
  | Jval.jnum n => toString n
  | Jval.jstr s => quoteStr s
  | Jval.jarr [] => "[]"
  | Jval.jarr (x :: xs) =>
      "[\n" ++ String.intercalate ",\n" (stringifyItems (d + 1) (x :: xs)) ++
        "\n" ++ pad d ++ "]"
  | Jval.jobj [] => "\x7b\x7d"
  | Jval.jobj (f :: fs) =>
      "\x7b\n" ++ String.intercalate ",\n" (stringifyFields (d + 1) (f :: fs)) ++
        "\n" ++ pad d ++ "\x7d"

def stringifyItems (d : Nat) : List Jval → List String
  | [] => []
  | x :: xs => (pad d ++ stringifyAt d x) :: stringifyItems d xs

def stringifyFields (d : Nat) : List (String × Jval) → List String
  | [] => []
  | (k, v) :: fs =>
      (pad d ++ quoteStr k ++ ": " ++ stringifyAt d v) :: stringifyFields d fs

end

/-- First value bound to key `k` in an object's field list. -/
def objLookup (fields : List (String × Jval)) (k : String) : Option Jval :=
  match fields with
  | [] => none
  | (k2, v) :: fs => if k2 = k then some v else objLookup fs k

/-- `pkg.name = x` on a parsed JS object: replace the value at an existing
`name` key in place, or append the key at the end when absent. -/
def objSetName (fields : List (String × Jval)) (v : Jval) : List (String × Jval) :=
  if fields.any (fun kv => kv.1 = "name") then
    fields.map (fun kv => if kv.1 = "name" then (kv.1, v) else kv)
  else fields ++ [("name", v)]

/-- The written `package.json` content (source lines 202-204):
`JSON.stringify(pkg, null, 2) + '\n'` after `pkg.name = packageName ||
getProjectName()` (JS `||`: `undefined` and `""` fall back). -/
def rewritePkgContent (pkg : List (String × Jval)) (packageName : Option String)
    (projectName : String) : String :=
  stringifyAt 0 (Jval.jobj (objSetName pkg (Jval.jstr (jsOrStrD packageName projectName)))) ++ "\n"

/-- The conditional rewrite in the clone callback (source lines 194-205):
nothing is written when no `package.json` exists; otherwise the rewritten
content is written. -/
def postClonePkgWrite (pkgFile : Option (List (String × Jval)))
    (packageName : Option String) (projectName : String) : Option String :=
  pkgFile.map (fun pkg => rewritePkgContent pkg packageName projectName)

lemma objLookup_map_set_name_of_any {fields : List (String × Jval)} {v : Jval}
    (h : fields.any (fun kv => kv.1 = "name") = true) :
    objLookup (fields.map (fun kv => if kv.1 = "name" then (kv.1, v) else kv)) "name"
      = some v := by
  induction fields with
  | nil => simp at h
  | cons f fs ih =>
    obtain ⟨k, w⟩ := f
    by_cases hk : k = "name"
    · subst hk
      simp [objLookup]
    · rw [List.any_cons] at h
      simp only [decide_eq_true_eq] at h
      have h2 : fs.any (fun kv => kv.1 = "name") = true := by
        rcases Bool.or_eq_true_iff.mp h with h1 | h1
        · exact absurd (of_decide_eq_true h1) hk
        · exact h1
      simp only [List.map_cons]
      rw [if_neg hk]
      simpa [objLookup, hk] using ih h2

lemma objLookup_append_name {fields : List (String × Jval)} {v : Jval}
    (h : fields.any (fun kv => kv.1 = "name") = false) :
    objLookup (fields ++ [("name", v)]) "name" = some v := by
  induction fields with
  | nil => simp [objLookup]
  | cons f fs ih =>
    obtain ⟨k, w⟩ := f
    rw [List.any_cons] at h
    have h2 := Bool.or_eq_false_iff.mp h
    have hk : k ≠ "name" := by simpa using h2.1
    simpa [objLookup, hk] using ih h2.2

lemma objLookup_objSetName_name (fields : List (String × Jval)) (v : Jval) :
    objLookup (objSetName fields v) "name" = some v := by
  unfold objSetName
  by_cases h : fields.any (fun kv => kv.1 = "name") = true
  · rw [if_pos h]
    exact objLookup_map_set_name_of_any h
  · rw [if_neg h]
    exact objLookup_append_name (Bool.not_eq_true _ ▸ h)

lemma objLookup_map_set_other {v : Jval} {k : String} (hk : k ≠ "name") :
    ∀ fields : List (String × Jval),
      objLookup (fields.map (fun kv => if kv.1 = "name" then (kv.1, v) else kv)) k
        = objLookup fields k := by
  intro fields
  induction fields with
  | nil => rfl
  | cons f fs ih =>
    obtain ⟨k2, w⟩ := f
    by_cases hk2 : k2 = "name"
    · subst hk2
      have hne : ¬("name" = k) := fun h0 => hk h0.symm
      simp only [List.map_cons, if_pos rfl, objLookup, if_neg hne]
      exact ih
    · simp only [List.map_cons, if_neg hk2]
      by_cases he : k2 = k
      · simp [objLookup, he]
      · simp only [objLookup, if_neg he]
        exact ih

lemma objLookup_append_other {v : Jval} {k : String} (hk : k ≠ "name") :
    ∀ fields : List (String × Jval),
      objLookup (fields ++ [("name", v)]) k = objLookup fields k := by
  intro fields
  induction fields with
  | nil =>
    have hne : ¬("name" = k) := fun h0 => hk h0.symm
    simp [objLookup, hne]
  | cons f fs ih =>
    obtain ⟨k2, w⟩ := f
    by_cases he : k2 = k
    · simp [objLookup, he]
    · simp only [List.cons_append, objLookup, if_neg he]
      exact ih

lemma objLookup_objSetName_other (fields : List (String × Jval)) (v : Jval)
    {k : String} (hk : k ≠ "name") :
    objLookup (objSetName fields v) k = objLookup fields k := by
  unfold objSetName
  split
  · exact objLookup_map_set_other hk fields
  · exact objLookup_append_other hk fields

lemma data_getLast?_append (a b : String) {c : Char}
    (h : b.data.getLast? = some c) : (a ++ b).data.getLast? = some c := by
  rw [String.data_append]
  rw [List.getLast?_append]
  rw [h]
  rfl

lemma stringifyAt_obj_getLast (d : Nat) (fields : List (String × Jval)) :
    (stringifyAt d (Jval.jobj fields)).data.getLast? = some '}' := by
  cases fields with
  | nil => rfl
  | cons f fs =>
    show ("\x7b\n" ++ String.intercalate ",\n" (stringifyFields (d + 1) (f :: fs)) ++
        "\n" ++ pad d ++ "\x7d").data.getLast? = some '}'
    exact data_getLast?_append _ "\x7d" rfl

/-- The resolved package name of the C8 example: entered name wins. -/
lemma jsOrStrD_some_nonempty : jsOrStrD (some "demo-app") "demo" = "demo-app" := rfl

/-- Evaluation of the rewrite on the spec's end-to-end example: descriptor
with `name: "template-default"` plus one other field, entered package name
`demo-app`. -/
lemma rewritePkgContent_eval :
    rewritePkgContent
        [("name", Jval.jstr "template-default"), ("version", Jval.jstr "1.0.0")]
        (some "demo-app") "demo" =
      "\x7b\n  \"name\": \"demo-app\",\n  \"version\": \"1.0.0\"\n\x7d\n" := rfl

/-- C8: when a `package.json` exists in the cloned directory, the written
content is the 2-space-indented serialization, plus a single trailing
newline, of the parsed object with its `name` field overwritten by the
entered package name — falling back to the resolved project name when none
was entered — and with every other field kept as parsed; when no
`package.json` exists nothing is written. -/
theorem claim_C8_pkg_rewrite :
    ∀ (pkg : List (String × Jval)) (packageName : Option String)
      (projectName : String),
      (postClonePkgWrite none packageName projectName = none) ∧
      (postClonePkgWrite (some pkg) packageName projectName =
        some (rewritePkgContent pkg packageName projectName)) ∧
      (objLookup (objSetName pkg (Jval.jstr (jsOrStrD packageName projectName))) "name"
        = some (Jval.jstr (jsOrStrD packageName projectName))) ∧
      (packageName = none →
        objLookup (objSetName pkg (Jval.jstr (jsOrStrD packageName projectName))) "name"
          = some (Jval.jstr projectName)) ∧
      (∀ k, k ≠ "name" →
        objLookup (objSetName pkg (Jval.jstr (jsOrStrD packageName projectName))) k
          = objLookup pkg k) ∧
      (rewritePkgContent pkg packageName projectName =
        stringifyAt 0
          (Jval.jobj (objSetName pkg (Jval.jstr (jsOrStrD packageName projectName))))
          ++ "\n") ∧
      ((stringifyAt 0
          (Jval.jobj (objSetName pkg (Jval.jstr (jsOrStrD packageName projectName))))).data.getLast?
        = some '}') := by
  intro pkg packageName projectName
  refine ⟨rfl, rfl, objLookup_objSetName_name pkg _, fun hn => ?_,
    fun k hk => objLookup_objSetName_other pkg _ hk, rfl,
    stringifyAt_obj_getLast 0 _⟩
  subst hn
  exact objLookup_objSetName_name pkg _

/-- C8 witness: on the concrete example descriptor the `version` field is
untouched by the `name` rewrite and the serialized object ends in `}` (so
the written content ends in exactly one newline). -/
theorem claim_C8_witness :
    objLookup (objSetName
        [("name", Jval.jstr "template-default"), ("version", Jval.jstr "1.0.0")]
        (Jval.jstr (jsOrStrD (some "demo-app") "demo"))) "version"
      = objLookup
        [("name", Jval.jstr "template-default"), ("version", Jval.jstr "1.0.0")]
        "version" ∧
    (stringifyAt 0 (Jval.jobj (objSetName
        [("name", Jval.jstr "template-default"), ("version", Jval.jstr "1.0.0")]
        (Jval.jstr (jsOrStrD (some "demo-app") "demo"))))).data.getLast?
      = some '}' :=
  ⟨(claim_C8_pkg_rewrite
      [("name", Jval.jstr "template-default"), ("version", Jval.jstr "1.0.0")]
      (some "demo-app") "demo").2.2.2.2.1 "version" (by decide),
   (claim_C8_pkg_rewrite
      [("name", Jval.jstr "template-default"), ("version", Jval.jstr "1.0.0")]
      (some "demo-app") "demo").2.2.2.2.2.2⟩

end CreateTemplate
